import Mathlib

/-!
Verification development for the polymarket-dashboard trading core.

This file gives a shallow embedding, in Lean 4, of the algorithmic core of the
repository — the trade admission gate (`agents/trader.py`), the circuit-breaker
update (`agents/risk_manager.py`), and the backtesting suite
(`backtesting/simulator.py`, `backtesting/drawdown.py`,
`backtesting/walk_forward.py`, `backtesting/monte_carlo.py`) — and proves or
refutes the frozen specification claims about that core.

Modelling conventions:
* Python floats and money amounts are modelled as exact rationals (`ℚ`);
  timestamps are modelled as rationals on an abstract time axis (the code only
  ever compares them and adds fixed offsets).
* Database reads performed by the Python code are modelled as explicit
  parameters holding the values those queries return.
* Fallible or effectful library calls (numpy RNG) are modelled explicitly; see
  the Monte Carlo section.
* Python f-string number formatting is modelled with `toString` on rationals;
  the claims under study depend only on which rule produced a reason string,
  never on digit formatting.
-/

/- ======================================================================
   DEFINITIONS
   ====================================================================== -/

/- ----------------------------------------------------------------------
   Trade admission gate: `TraderAgent._validate_trade` (agents/trader.py).
   ---------------------------------------------------------------------- -/

/-- Configuration snapshot read by the gate: `trading_cfg` and its `limits`
section, with the defaults hard-coded in `_validate_trade` /
`_get_trading_config`. -/
structure GateConfig where
  maxDailyLossUsd : ℚ := 50
  maxPositionPct : ℚ := 5
  capitalUsd : ℚ := 100
  minEdge : ℚ := 3 / 100
  categoryBlacklist : List String := []
deriving Repr, DecidableEq

/-- Environment of the gate evaluation: the values returned by the database
queries and collaborator calls that `_validate_trade` performs, plus the
current time `datetime.utcnow()`. `pausedUntil = none` models both a missing
`circuit_breaker` row and a NULL / empty `paused_until` column (both falsy in
the Python guard `if cb and cb.get ("paused_until")`). `todayNegPnlTotal` is
the value of `COALESCE(SUM(pnl), 0)` over today's losing trades.
`marketCategory` is the category of the payload's market (`none` when the
market row is missing or its category is NULL, both falsy in the guard). -/
structure GateEnv where
  pausedUntil : Option ℚ
  now : ℚ
  todayNegPnlTotal : ℚ
  marketCategory : Option String
  budgetAllowed : Bool
  budgetReason : String
deriving Repr, DecidableEq

/-- Proposed trade payload fields read by the gate, with the `.get` defaults
of the source (`amount_usd` defaults to 0, `edge` defaults to 0). -/
structure TradePayload where
  amountUsd : ℚ := 0
  edge : ℚ := 0
deriving Repr, DecidableEq

/-- Reason string of gate rule 1 (circuit breaker). -/
def circuitBreakerMsg (pausedUntil : ℚ) : String :=
  "Circuit Breaker aktiv bis " ++ toString pausedUntil

/-- Reason string of gate rule 2 (daily loss limit). -/
def dailyLossMsg (todayLoss maxDailyLoss : ℚ) : String :=
  "Tägliches Verlustlimit erreicht ($" ++ toString todayLoss ++ " / $"
    ++ toString maxDailyLoss ++ ")"

/-- Reason string of gate rule 3 (position size limit). -/
def positionMsg (amount maxPosition : ℚ) : String :=
  "Position zu groß ($" ++ toString amount ++ " > max $"
    ++ toString maxPosition ++ ")"

/-- Reason string of gate rule 4 (minimum edge). -/
def edgeMsg (edge minEdge : ℚ) : String :=
  "Edge zu klein (" ++ toString edge ++ " < " ++ toString minEdge ++ ")"

/-- Reason string of gate rule 5 (category blacklist). -/
def categoryMsg (category : String) : String :=
  "Kategorie '" ++ category ++ "' ist gesperrt"

/-- The maximum allowed position of gate rule 3:
`capital * (max_position_pct / 100)` — the configured value is a percentage
and the source divides it by 100. -/
def maxPosition (cfg : GateConfig) : ℚ :=
  cfg.capitalUsd * (cfg.maxPositionPct / 100)

/-- Rules 2–6 of `_validate_trade`, evaluated in source order after the
circuit-breaker rule has passed. -/
def validateRest (cfg : GateConfig) (env : GateEnv) (p : TradePayload) :
    Bool × String :=
  if |env.todayNegPnlTotal| ≥ cfg.maxDailyLossUsd then
    (false, dailyLossMsg |env.todayNegPnlTotal| cfg.maxDailyLossUsd)
  else if p.amountUsd > maxPosition cfg then
    (false, positionMsg p.amountUsd (maxPosition cfg))
  else if p.edge < cfg.minEdge then
    (false, edgeMsg p.edge cfg.minEdge)
  else if (match env.marketCategory with
           | some c => cfg.categoryBlacklist.contains c
           | none => false) then
    (false, categoryMsg (env.marketCategory.getD ""))
  else if !env.budgetAllowed then
    (false, "Budget: " ++ env.budgetReason)
  else
    (true, "OK")

/-- Embedding of `TraderAgent._validate_trade`: the sequential rule chain.
Returns the `(ok, reason)` pair of the source. -/
def validate_trade (cfg : GateConfig) (env : GateEnv) (p : TradePayload) :
    Bool × String :=
  match env.pausedUntil with
  | some pu =>
    if env.now < pu then (false, circuitBreakerMsg pu)
    else validateRest cfg env p
  | none => validateRest cfg env p

/- ----------------------------------------------------------------------
   Circuit breaker update: `RiskManagerAgent._check_circuit_breaker`
   (agents/risk_manager.py).
   ---------------------------------------------------------------------- -/

/-- The `circuit_breaker` table row (id = 1). `paused_until` is NULL-able. -/
structure CircuitBreakerRow where
  consecutive_losses : ℕ
  paused_until : Option ℚ
deriving Repr, DecidableEq

/-- Loop of `_check_circuit_breaker` that counts the streak of most-recent
losses: walk the `result` column of recent executed trades (most recent
first), increment on value `loss`, stop at the first other value. -/
def countConsecutiveLosses : List (Option String) → ℕ
  | [] => 0
  | r :: rs => if r = some "loss" then countConsecutiveLosses rs + 1 else 0

/-- Embedding of `RiskManagerAgent._check_circuit_breaker`.
`recentResults` is the `result` column of executed trades ordered by
`executed_at` descending; the source query carries `LIMIT max_losses`,
modelled by `List.take`. The source reads the existing `circuit_breaker` row
(`prev`) but never uses it: the subsequent UPDATE overwrites both
`consecutive_losses` and `paused_until` unconditionally, with
`paused_until = now + pause_hours` when the streak reached the limit and NULL
otherwise. `pauseHours` is in the same (hour) unit as the time axis. -/
def check_circuit_breaker (maxLosses : ℕ) (pauseHours now : ℚ)
    (recentResults : List (Option String)) (_prev : CircuitBreakerRow) :
    CircuitBreakerRow :=
  let cl := countConsecutiveLosses (recentResults.take maxLosses)
  if cl ≥ maxLosses then ⟨cl, some (now + pauseHours)⟩
  else ⟨cl, none⟩

/- ----------------------------------------------------------------------
   Backtesting engine: `run_backtest` (backtesting/simulator.py).
   ---------------------------------------------------------------------- -/

/-- One input row of the trades DataFrame: the columns read by
`run_backtest`. `pnl` and `amount_usd` are nullable (read with `.get`
defaults in the source); `executed_at` is the sort key, modelled on a
rational time axis. -/
structure BTrade where
  pnl : Option ℚ
  amount_usd : Option ℚ
  executed_at : ℚ
deriving Repr, DecidableEq

/-- Stable insertion of an element into a list sorted by `key`: the new
element goes before the first resident whose key is not below its own, so
earlier input elements stay before later ones with equal keys. -/
def insertByKey {α : Type} (key : α → ℚ) (x : α) : List α → List α
  | [] => [x]
  | y :: ys =>
    if key x ≤ key y then x :: y :: ys else y :: insertByKey key x ys

/-- Stable sort by a rational key; models pandas `sort_values`, which is
stable in the sense relevant here (rows with equal keys keep their input
order). -/
def sortByKey {α : Type} (key : α → ℚ) : List α → List α
  | [] => []
  | x :: xs => insertByKey key x (sortByKey key xs)

/-- One row appended to `results` in the loop of `run_backtest`: the two
derived columns. The original trade columns are also carried in the source
row dict but are never re-read by the metrics, so they are not repeated
here. -/
structure ResultRow where
  adjusted_pnl : ℚ
  capital_after : ℚ
deriving Repr, DecidableEq

/-- Truthiness of the stop-loss check
`if stop_loss_pct and capital < initial_capital * (1 - stop_loss_pct)`:
a missing (None) or zero stop loss is falsy and disables the check. -/
def stopHit (stop_loss_pct : Option ℚ) (initial_capital capital : ℚ) : Bool :=
  match stop_loss_pct with
  | none => false
  | some s => decide (s ≠ 0) && decide (capital < initial_capital * (1 - s))

/-- Position-size scaling of one trade in `run_backtest`:
`max_bet = capital * max_position_pct`,
`actual_bet = min(amount_usd, max_bet)` (the `.get` default makes a missing
`amount_usd` equal to `max_bet`), `scale = actual_bet / amount_usd` when
`amount_usd > 0` and 1 otherwise, and `adjusted_pnl = pnl * scale` with a
missing `pnl` read as 0. -/
def adjustedPnl (max_position_pct capital : ℚ) (t : BTrade) : ℚ :=
  match t.amount_usd with
  | some a =>
    if 0 < a then t.pnl.getD 0 * (min a (capital * max_position_pct) / a)
    else t.pnl.getD 0
  | none => t.pnl.getD 0

/-- The per-trade loop of `run_backtest`: scale, update capital, record the
row, and break after recording when the stop loss is breached. -/
def btLoop (initial_capital max_position_pct : ℚ) (stop_loss_pct : Option ℚ) :
    List BTrade → ℚ → List ResultRow
  | [], _ => []
  | t :: ts, capital =>
    if stopHit stop_loss_pct initial_capital
        (capital + adjustedPnl max_position_pct capital t) then
      [⟨adjustedPnl max_position_pct capital t,
        capital + adjustedPnl max_position_pct capital t⟩]
    else
      ⟨adjustedPnl max_position_pct capital t,
        capital + adjustedPnl max_position_pct capital t⟩ ::
        btLoop initial_capital max_position_pct stop_loss_pct ts
          (capital + adjustedPnl max_position_pct capital t)

/-- Helper for the running maximum, carrying the maximum seen so far. -/
def runningMaxAux (m : ℚ) : List ℚ → List ℚ
  | [] => []
  | x :: xs => max m x :: runningMaxAux (max m x) xs

/-- Embedding of `np.maximum.accumulate`: the running maximum of a list. -/
def runningMax : List ℚ → List ℚ
  | [] => []
  | x :: xs => x :: runningMaxAux x xs

/-- Embedding of the numpy `.max()` reduction. The source only applies it to
non-empty arrays; this model returns 0 on the empty list. -/
def npMax : List ℚ → ℚ
  | [] => 0
  | x :: xs => xs.foldl max x

/-- Embedding of `np.mean` in exact rational arithmetic. On the empty array
numpy yields NaN; this model yields 0, and every use below is guarded to the
non-empty case exactly as in the source. -/
def npMean (l : List ℚ) : ℚ := l.sum / l.length

/-- Population variance (the square of `np.std`, ddof = 0), in exact
rational arithmetic. `np.std(pnls) > 0` holds exactly when this is
positive. -/
def npVariance (l : List ℚ) : ℚ :=
  (l.map (fun x => (x - npMean l) ^ 2)).sum / l.length

/-- The annualized Sharpe ratio `mean(pnls) / np.std(pnls) * sqrt 250`,
guarded by `len(pnls) > 1 and np.std(pnls) > 0`, else 0. The square root
makes the unguarded value irrational, so this is the one non-executable
number of the development; the claims only ever inspect its guard-forced
zero. -/
noncomputable def annualizedSharpe (l : List ℚ) : ℝ :=
  if 1 < l.length ∧ 0 < npVariance l then
    (npMean l : ℝ) / Real.sqrt (npVariance l) * Real.sqrt 250
  else 0

/-- Container mirroring the `BacktestResult` dataclass. `trades` holds the
derived columns of the result DataFrame. `profit_factor` lives in
`WithTop ℚ`, with `⊤` standing for the float infinity sentinel of the
source. -/
structure BacktestResult where
  trades : List ResultRow
  total_pnl : ℚ
  win_rate : ℚ
  total_trades : ℕ
  wins : ℕ
  losses : ℕ
  max_drawdown : ℚ
  max_drawdown_pct : ℚ
  sharpe_ratio : ℝ
  profit_factor : WithTop ℚ
  avg_win : ℚ
  avg_loss : ℚ
  equity_curve : List ℚ
  drawdown_curve : List ℚ

/-- Embedding of `run_backtest` (backtesting/simulator.py). The empty-input
early return builds the dataclass with its declared defaults — note the
default `equity_curve` is the EMPTY list. In the main branch the trades are
sorted by `executed_at`, the loop produces the result rows, and the metrics
are computed from the `adjusted_pnl` column. The elementwise
`drawdown / running_max` division of the source is exact rational division
here (the curves under study never divide by zero). -/
noncomputable def run_backtest (trades : List BTrade) (initial_capital : ℚ)
    (max_position_pct : ℚ) (stop_loss_pct : Option ℚ) : BacktestResult :=
  if trades = [] then
    ⟨[], 0, 0, 0, 0, 0, 0, 0, 0, 0, 0, 0, [], []⟩
  else
    let df := sortByKey (fun t => t.executed_at) trades
    let rows := btLoop initial_capital max_position_pct stop_loss_pct df
      initial_capital
    let equity_curve := initial_capital :: rows.map (fun r => r.capital_after)
    let pnls := rows.map (fun r => r.adjusted_pnl)
    let winsList := pnls.filter (fun x => 0 < x)
    let lossesList := pnls.filter (fun x => x < 0)
    let wins := winsList.length
    let losses := lossesList.length
    let total_trades := pnls.length
    let win_rate := if 0 < total_trades then (wins : ℚ) / total_trades else 0
    let avg_win := if 0 < wins then npMean winsList else 0
    let avg_loss := if 0 < losses then npMean lossesList else 0
    let gross_profit := if 0 < wins then winsList.sum else 0
    let gross_loss := if 0 < losses then |lossesList.sum| else 0
    let profit_factor : WithTop ℚ :=
      if 0 < gross_loss then ((gross_profit / gross_loss : ℚ) : WithTop ℚ)
      else if 0 < gross_profit then ⊤ else 0
    let drawdown :=
      List.zipWith (fun m e => m - e) (runningMax equity_curve) equity_curve
    let drawdown_pct :=
      List.zipWith (fun m d => d / m) (runningMax equity_curve) drawdown
    ⟨rows, pnls.sum, win_rate, total_trades, wins, losses, npMax drawdown,
      npMax drawdown_pct, annualizedSharpe pnls, profit_factor, avg_win,
      avg_loss, equity_curve, drawdown⟩

/-- The equity-chain predicate: starting from `capital`, every result row's
`capital_after` exceeds the running capital by exactly its `adjusted_pnl`. -/
def chained : ℚ → List ResultRow → Prop
  | _, [] => True
  | capital, r :: rs =>
    r.capital_after = capital + r.adjusted_pnl ∧ chained r.capital_after rs

/- ----------------------------------------------------------------------
   Drawdown analyzer: `analyze_drawdowns` and `_find_drawdown_periods`
   (backtesting/drawdown.py).
   ---------------------------------------------------------------------- -/

/-- The `DrawdownPeriod` dataclass. -/
structure DrawdownPeriod where
  start_idx : ℕ
  end_idx : ℕ
  recovery_idx : Option ℕ
  peak_value : ℚ
  trough_value : ℚ
  drawdown_abs : ℚ
  drawdown_pct : ℚ
  duration_trades : ℕ
  recovery_trades : Option ℕ
deriving Repr, DecidableEq

/-- Scan state of the loop in `_find_drawdown_periods`. The source
initializes `trough_val` to float infinity; the initial values of `start`,
`peak_val`, `trough_val` and `trough_idx` are never read before a period
begins (which overwrites all of them), so the initial `trough_val` is
immaterial and modelled as 0. -/
structure DDScan where
  in_drawdown : Bool
  start : ℕ
  peak_val : ℚ
  trough_val : ℚ
  trough_idx : ℕ
  periods : List DrawdownPeriod
deriving Repr, DecidableEq

/-- The period record appended on recovery at index `i`. -/
def closePeriod (st : DDScan) (i : ℕ) : DrawdownPeriod :=
  ⟨st.start, st.trough_idx, some i, st.peak_val, st.trough_val,
    st.peak_val - st.trough_val,
    if 0 < st.peak_val then (st.peak_val - st.trough_val) / st.peak_val
    else 0,
    st.trough_idx - st.start, some (i - st.trough_idx)⟩

/-- The period record appended when the series ends while still in
drawdown. -/
def openPeriod (st : DDScan) : DrawdownPeriod :=
  ⟨st.start, st.trough_idx, none, st.peak_val, st.trough_val,
    st.peak_val - st.trough_val,
    if 0 < st.peak_val then (st.peak_val - st.trough_val) / st.peak_val
    else 0,
    st.trough_idx - st.start, none⟩

/-- One iteration of the scan in `_find_drawdown_periods`, at position `i`
with equity `e`, running maximum `m` and absolute drawdown `d`: enter a
period (backdating `start` to `i - 1` to capture the peak point), deepen the
running trough, or close the period on recovery (`d = 0`). -/
def ddScanStep (st : DDScan) (p : ℕ × ℚ × ℚ × ℚ) : DDScan :=
  match p with
  | (i, e, m, d) =>
    if 0 < d ∧ st.in_drawdown = false then
      ⟨true, if 0 < i then i - 1 else 0, m, e, i, st.periods⟩
    else if 0 < d ∧ st.in_drawdown = true then
      if e < st.trough_val then
        ⟨true, st.start, st.peak_val, e, i, st.periods⟩
      else st
    else if d = 0 ∧ st.in_drawdown = true then
      ⟨false, st.start, st.peak_val, st.trough_val, st.trough_idx,
        st.periods ++ [closePeriod st i]⟩
    else st

/-- The `for i in range(len(equity))` loop of `_find_drawdown_periods`,
walking the (equity, running max, absolute drawdown) triples with an explicit
index counter. -/
def ddScanGo : DDScan → ℕ → List (ℚ × ℚ × ℚ) → DDScan
  | st, _, [] => st
  | st, i, x :: xs => ddScanGo (ddScanStep st (i, x.1, x.2.1, x.2.2)) (i + 1) xs

/-- Embedding of `_find_drawdown_periods`: left-to-right scan over the
indexed equity / running-maximum / absolute-drawdown triples, emitting a
final open period when the series ends in drawdown. The source also receives
the percentage-drawdown array but never reads it, kept here as the unused
`_dd_pct`. -/
def find_drawdown_periods (equity running_max dd_abs _dd_pct : List ℚ) :
    List DrawdownPeriod :=
  let st := ddScanGo ⟨false, 0, 0, 0, 0, []⟩ 0
    (equity.zip (running_max.zip dd_abs))
  if st.in_drawdown then st.periods ++ [openPeriod st] else st.periods

/-- Stable descending insertion by a rational key (the inserted element goes
before residents with a key not above its own). -/
def insertByKeyDesc {α : Type} (key : α → ℚ) (x : α) : List α → List α
  | [] => [x]
  | y :: ys =>
    if key y ≤ key x then x :: y :: ys else y :: insertByKeyDesc key x ys

/-- Stable descending sort by a rational key; models Python `list.sort` with
a key and `reverse=True` (stable). -/
def sortByKeyDesc {α : Type} (key : α → ℚ) : List α → List α
  | [] => []
  | x :: xs => insertByKeyDesc key x (sortByKeyDesc key xs)

/-- The `DrawdownResult` dataclass. -/
structure DrawdownResult where
  drawdown_curve : List ℚ
  drawdown_pct_curve : List ℚ
  max_drawdown_abs : ℚ
  max_drawdown_pct : ℚ
  avg_drawdown_pct : ℚ
  time_in_drawdown_pct : ℚ
  longest_drawdown_trades : ℕ
  top_drawdowns : List DrawdownPeriod
deriving Repr, DecidableEq

/-- Embedding of `analyze_drawdowns` (backtesting/drawdown.py): running
maximum, drawdown curves (`np.where(running_max > 0, dd/rm, 0)`), aggregate
statistics over in-drawdown points, period decomposition, and the `top_n`
periods sorted by absolute magnitude descending. -/
def analyze_drawdowns (equity_curve : List ℚ) (top_n : ℕ) : DrawdownResult :=
  if equity_curve.length < 2 then ⟨[], [], 0, 0, 0, 0, 0, []⟩
  else
    let running_max := runningMax equity_curve
    let drawdown_abs :=
      List.zipWith (fun m e => m - e) running_max equity_curve
    let drawdown_pct :=
      List.zipWith (fun m d => if 0 < m then d / m else 0) running_max
        drawdown_abs
    let in_dd_count := (drawdown_abs.filter (fun d => 0 < d)).length
    let time_in_dd_pct :=
      if 0 < drawdown_abs.length then
        (in_dd_count : ℚ) / drawdown_abs.length
      else 0
    let dd_when_active :=
      ((drawdown_abs.zip drawdown_pct).filter (fun p => 0 < p.1)).map
        (fun p => p.2)
    let avg_dd_pct :=
      if 0 < dd_when_active.length then npMean dd_when_active else 0
    let periods :=
      find_drawdown_periods equity_curve running_max drawdown_abs drawdown_pct
    let sorted := sortByKeyDesc (fun p => p.drawdown_abs) periods
    let top_periods := sorted.take top_n
    let longest := (sorted.map (fun p => p.duration_trades)).foldr max 0
    ⟨drawdown_abs, drawdown_pct, npMax drawdown_abs, npMax drawdown_pct,
      avg_dd_pct, time_in_dd_pct, longest, top_periods⟩

/- ----------------------------------------------------------------------
   Monte Carlo resampler: `run_monte_carlo` (backtesting/monte_carlo.py).

   The numpy generator (`np.random.default_rng(42)` / `rng.permutation`) is
   external library code. Its contract, on which the claims rest, is:
   a seeded generator is a pure function of its seed (the ambient entropy
   pool is consulted only by unseeded construction), and `permutation`
   returns a permutation of its input. The bit-level PCG64 stream is
   immaterial to the claims and is stood in for by an explicit congruential
   generator and selection shuffle.
   ---------------------------------------------------------------------- -/

/-- Deterministic pseudo-random state transition standing in for the seeded
PCG64 bit generator. -/
def rngNext (s : ℕ) : ℕ := (s * 1103515245 + 12345) % 2 ^ 31

/-- Stand-in for `rng.permutation`: selection shuffle — move the element at
the pseudo-random index to the front, recurse on the rest (erasing one copy
of the chosen value), threading the generator state. Fuel is the list
length. -/
def selShuffle : ℕ → ℕ → List ℚ → List ℚ × ℕ
  | 0, s, l => (l, s)
  | fuel + 1, s, l =>
    match l with
    | [] => ([], s)
    | y :: ys =>
      let j := s % (y :: ys).length
      let x := (y :: ys).getD j 0
      let p := selShuffle fuel (rngNext s) ((y :: ys).erase x)
      (x :: p.1, p.2)

/-- One call of `rng.permutation(pnls)`: shuffle with fuel equal to the
length, returning the permuted list and the advanced generator state. -/
def rngPermutation (s : ℕ) (l : List ℚ) : List ℚ × ℕ :=
  selShuffle l.length s l

/-- The shuffled P&L sequences of the `for i in range(n_simulations)` loop,
threading the generator state across iterations. -/
def mcShuffles : ℕ → ℕ → List ℚ → List (List ℚ)
  | 0, _, _ => []
  | n + 1, s, pnls =>
    let p := rngPermutation s pnls
    p.1 :: mcShuffles n p.2 pnls

/-- Equity curve of one simulation:
`np.insert(initial_capital + np.cumsum(shuffled), 0, initial_capital)`,
which is exactly the prefix-sum scan from the initial capital. -/
def mcEquity (initial_capital : ℚ) (shuffled : List ℚ) : List ℚ :=
  List.scanl (fun p q => p + q) initial_capital shuffled

/-- Max drawdown of one simulated curve: `(running_max - equity).max()`. -/
def mcMaxDD (equity : List ℚ) : ℚ :=
  npMax (List.zipWith (fun m e => m - e) (runningMax equity) equity)

/-- Embedding of `np.median`: middle element (or average of the two middle
elements) of the sorted array; 0 on the empty array, where numpy yields NaN
— unreached under the claims, which require at least one simulation. -/
def npMedian (l : List ℚ) : ℚ :=
  let s := sortByKey (fun x => x) l
  if l.length = 0 then 0
  else if l.length % 2 = 1 then s.getD (l.length / 2) 0
  else (s.getD (l.length / 2 - 1) 0 + s.getD (l.length / 2) 0) / 2

/-- Embedding of `np.percentile` with the default linear interpolation:
position `q/100 * (n-1)` in the sorted array, interpolated between the two
neighbouring entries; 0 on the empty array (numpy raises there — unreached
under the claims). -/
def npPercentile (l : List ℚ) (q : ℚ) : ℚ :=
  let s := sortByKey (fun x => x) l
  if l.length = 0 then 0
  else
    let pos : ℚ := q / 100 * ((l.length : ℚ) - 1)
    s.getD (Int.floor pos).toNat 0 +
      (s.getD (Int.ceil pos).toNat 0 - s.getD (Int.floor pos).toNat 0) *
        (pos - Int.floor pos)

/-- The `MonteCarloResult` dataclass. -/
structure MonteCarloResult where
  n_simulations : ℕ
  final_capitals : List ℚ
  max_drawdowns : List ℚ
  median_pnl : ℚ
  mean_pnl : ℚ
  pnl_5th : ℚ
  pnl_95th : ℚ
  prob_profitable : ℚ
  median_max_dd : ℚ
  worst_max_dd : ℚ
  equity_curves : List (List ℚ)
deriving Repr, DecidableEq

/-- The body of `run_monte_carlo` given the per-iteration shuffled P&L
sequences: per-simulation equity curves, final capitals and max drawdowns,
aggregate statistics, and the first `n_curves_to_store` curves retained for
plotting. `prob_profitable` is `np.mean(finals > initial_capital)`, the mean
of the 0/1 indicator array. -/
def mcAggregate (n_simulations : ℕ) (initial_capital : ℚ)
    (n_curves_to_store : ℕ) (shuffles : List (List ℚ)) : MonteCarloResult :=
  let curves := shuffles.map (mcEquity initial_capital)
  let final_capitals := curves.map (fun c => c.getLast?.getD 0)
  let max_drawdowns := curves.map mcMaxDD
  ⟨n_simulations, final_capitals, max_drawdowns,
    npMedian final_capitals - initial_capital,
    npMean final_capitals - initial_capital,
    npPercentile final_capitals 5 - initial_capital,
    npPercentile final_capitals 95 - initial_capital,
    npMean (final_capitals.map
      (fun x => if initial_capital < x then 1 else 0)),
    npMedian max_drawdowns,
    npMax max_drawdowns,
    curves.take n_curves_to_store⟩

/-- Ambient process state visible to generator construction: a stub entropy
pool, consumed only by unseeded construction. -/
structure World where
  entropy : ℕ
deriving Repr, DecidableEq

/-- Model of `np.random.default_rng`: with a concrete seed the initial state
is a pure function of the seed and the ambient world is untouched; an
unseeded call would draw on (and advance) the entropy pool. -/
def np_default_rng (seed : Option ℕ) (w : World) : ℕ × World :=
  match seed with
  | some s => (s, w)
  | none => (w.entropy, ⟨w.entropy + 1⟩)

/-- Embedding of `run_monte_carlo` (backtesting/monte_carlo.py): the
generator is created inside the function from the constant seed 42
(`rng = np.random.default_rng(42)`); no seed parameter is exposed to
callers. The ambient world is threaded to model the effectful library
call. -/
def run_monte_carlo (w : World) (pnls : List ℚ) (n_simulations : ℕ)
    (initial_capital : ℚ) (n_curves_to_store : ℕ) :
    MonteCarloResult × World :=
  let r := np_default_rng (some 42) w
  (mcAggregate n_simulations initial_capital n_curves_to_store
    (mcShuffles n_simulations r.1 pnls), r.2)

/- ----------------------------------------------------------------------
   Walk-forward analysis: `run_walk_forward` (backtesting/walk_forward.py).
   ---------------------------------------------------------------------- -/

/-- One input row of the walk-forward trades DataFrame: the nullable `pnl`
column (read through `fillna(0)`) and the `executed_at` sort key. -/
structure WTrade where
  pnl : Option ℚ
  executed_at : ℚ
deriving Repr, DecidableEq

/-- Python slice `df.iloc[a:b]` for nonnegative bounds: the elements at
indices `a ≤ i < b`, clipped to the frame length. (Python's wrap-around
semantics for negative bounds does not arise on the modelled domain: the
split index is nonnegative for the nonnegative `train_ratio` values the spec
admits.) -/
def pySlice {α : Type} (l : List α) (a b : ℕ) : List α :=
  (l.drop a).take (b - a)

/-- The `WalkForwardWindow` dataclass. The four boundary labels hold the
`executed_at` value of the corresponding row (`none` models the empty-string
fallback; the source stores the date prefix of the printed timestamp, a
presentation detail not modelled). `test_sharpe` uses the §4.1 Sharpe
formula on the test P&L. -/
structure WalkForwardWindow where
  window_id : ℕ
  train_start : Option ℚ
  train_end : Option ℚ
  test_start : Option ℚ
  test_end : Option ℚ
  train_trades : ℕ
  test_trades : ℕ
  train_win_rate : ℚ
  test_win_rate : ℚ
  train_pnl : ℚ
  test_pnl : ℚ
  test_sharpe : ℝ

/-- The `WalkForwardResult` dataclass. -/
structure WalkForwardResult where
  windows : List WalkForwardWindow
  n_windows : ℕ
  avg_test_win_rate : ℚ
  avg_test_pnl : ℚ
  consistency_score : ℚ
  degradation : ℚ

/-- Window-count and window-size derivation of `run_walk_forward`:
`window_size = n // n_windows`, shrinking `n_windows` to `max(1, n // 10)`
and recomputing the size when the size falls below 10. Returns the final
`(n_windows, window_size)` pair. -/
def wfShape (n n_windows : ℕ) : ℕ × ℕ :=
  let window_size := n / n_windows
  if window_size < 10 then
    let nw := max 1 (n / 10)
    (nw, n / nw)
  else (n_windows, window_size)

/-- The overlap step:
`step = max(1, (n - window_size) // max(1, n_windows - 1))`. -/
def wfStep (n n_windows window_size : ℕ) : ℕ :=
  max 1 ((n - window_size) / max 1 (n_windows - 1))

/-- One iteration `i` of the window loop of `run_walk_forward`: `none` when
the window is skipped (span below 10 trades, or test portion below 3). The
split index is `start + int((end - start) * train_ratio)`; Python `int`
truncation coincides with the floor on the nonnegative products of the
modelled domain. -/
noncomputable def wfWindowAt (df : List WTrade) (n window_size step : ℕ)
    (train_ratio : ℚ) (i : ℕ) : Option WalkForwardWindow :=
  let start := i * step
  let e := min (start + window_size) n
  if e - start < 10 then none
  else
    let split :=
      start + (Int.floor (((e - start : ℕ) : ℚ) * train_ratio)).toNat
    let train := pySlice df start split
    let test := pySlice df split e
    if test.length < 3 then none
    else
      let train_pnls := train.map (fun t => t.pnl.getD 0)
      let test_pnls := test.map (fun t => t.pnl.getD 0)
      let train_wins := (train_pnls.filter (fun x => 0 < x)).length
      let test_wins := (test_pnls.filter (fun x => 0 < x)).length
      some ⟨i,
        train.head?.map (fun t => t.executed_at),
        train.getLast?.map (fun t => t.executed_at),
        test.head?.map (fun t => t.executed_at),
        test.getLast?.map (fun t => t.executed_at),
        train.length, test.length,
        (if 0 < train.length then (train_wins : ℚ) / train.length else 0),
        (if 0 < test.length then (test_wins : ℚ) / test.length else 0),
        train_pnls.sum, test_pnls.sum,
        annualizedSharpe test_pnls⟩

/-- Embedding of `run_walk_forward` (backtesting/walk_forward.py): the
early empty result below 20 trades (which subsumes the `trades.empty`
check), the sorted frame, the derived window shape and step, the filtered
window list, and the aggregate statistics — or a second empty result when
every window was skipped. -/
noncomputable def run_walk_forward (trades : List WTrade) (n_windows : ℕ)
    (train_ratio : ℚ) : WalkForwardResult :=
  if trades.length < 20 then ⟨[], 0, 0, 0, 0, 0⟩
  else
    let df := sortByKey (fun t => t.executed_at) trades
    let n := df.length
    let shape := wfShape n n_windows
    let step := wfStep n shape.1 shape.2
    let windows := (List.range shape.1).filterMap
      (wfWindowAt df n shape.2 step train_ratio)
    if windows.isEmpty then ⟨[], 0, 0, 0, 0, 0⟩
    else
      let avg_test_wr := npMean (windows.map (fun w => w.test_win_rate))
      let avg_test_pnl := npMean (windows.map (fun w => w.test_pnl))
      let avg_train_wr := npMean (windows.map (fun w => w.train_win_rate))
      let profitable := (windows.filter (fun w => 0 < w.test_pnl)).length
      ⟨windows, windows.length, avg_test_wr, avg_test_pnl,
        (profitable : ℚ) / windows.length, avg_train_wr - avg_test_wr⟩

/- ======================================================================
   THEOREMS
   ====================================================================== -/

/-- Helper: two reason strings with distinct literal prefixes are never
equal (their first characters differ). -/
theorem circuitBreakerMsg_ne_edgeMsg (pu e m : ℚ) :
    circuitBreakerMsg pu ≠ edgeMsg e m := by
  intro h
  have hd := congrArg (fun s => s.data.head?) h
  simp only [circuitBreakerMsg, edgeMsg, String.data_append] at hd
  simp at hd

/-- C1: when the circuit breaker is tripped (`paused_until` in the future) the
gate rejects with the circuit-breaker reason even if the payload's edge is
also below `min_edge` (and that reason is never the edge reason); and whenever
the gate accepts, the returned reason string is exactly OK. -/
theorem validate_trade_cb_precedence_and_ok (cfg : GateConfig) (env : GateEnv)
    (p : TradePayload) :
    (∀ pu, env.pausedUntil = some pu → env.now < pu → p.edge < cfg.minEdge →
      validate_trade cfg env p = (false, circuitBreakerMsg pu) ∧
        circuitBreakerMsg pu ≠ edgeMsg p.edge cfg.minEdge) ∧
    ((validate_trade cfg env p).1 = true →
      (validate_trade cfg env p).2 = "OK") := by
  constructor
  · intro pu hpu hnow _
    refine ⟨?_, circuitBreakerMsg_ne_edgeMsg pu p.edge cfg.minEdge⟩
    simp [validate_trade, hpu, hnow]
  · cases hpu : env.pausedUntil with
    | none =>
      intro h
      simp only [validate_trade, hpu, validateRest] at h ⊢
      split_ifs at h ⊢ ; simp_all
    | some pu =>
      intro h
      simp only [validate_trade, hpu, validateRest] at h ⊢
      split_ifs at h ⊢ ; simp_all

/-- Witness for C1 at concrete inputs: a breaker paused until time 5 checked
at time 0 with an edge of 1/100 below the minimum 3/100 is rejected with the
circuit-breaker reason, and a passing payload is accepted with reason OK. -/
theorem validate_trade_cb_precedence_and_ok_witness :
    (validate_trade ⟨50, 5, 100, 3 / 100, []⟩ ⟨some 5, 0, 0, none, true, ""⟩
          ⟨0, 1 / 100⟩ = (false, circuitBreakerMsg 5) ∧
      circuitBreakerMsg 5 ≠ edgeMsg (1 / 100 : ℚ) (3 / 100 : ℚ)) ∧
    (validate_trade ⟨50, 5, 100, 3 / 100, []⟩ ⟨none, 0, 0, none, true, ""⟩
        ⟨1, 1⟩).2 = "OK" := by
  refine ⟨?_, ?_⟩
  · exact (validate_trade_cb_precedence_and_ok ⟨50, 5, 100, 3 / 100, []⟩
      ⟨some 5, 0, 0, none, true, ""⟩ ⟨0, 1 / 100⟩).1 5 rfl (by norm_num)
      (by norm_num)
  · exact (validate_trade_cb_precedence_and_ok ⟨50, 5, 100, 3 / 100, []⟩
      ⟨none, 0, 0, none, true, ""⟩ ⟨1, 1⟩).2
      (by norm_num [validate_trade, validateRest, maxPosition])

/-- C2 counterexample: the claim that `paused_until`, once set, is cleared
only by manual reset or natural expiry is false — the risk check overwrites
the row unconditionally, so a most-recent win clears a still-unexpired pause.
At `max_consecutive_losses = 3`, `pause_hours = 24`, check time 0, recent
results `[win]`, and a previous row tripped until time 10 (not yet expired),
the check writes `paused_until = NULL`. -/
theorem check_circuit_breaker_pause_not_persistent :
    ¬ (∀ (maxLosses : ℕ) (pauseHours now : ℚ)
        (recent : List (Option String)) (prev : CircuitBreakerRow) (t : ℚ),
        prev.paused_until = some t → now < t →
        (check_circuit_breaker maxLosses pauseHours now recent prev).paused_until
          ≠ none) := by
  intro h
  exact h 3 24 0 [some "win"] ⟨3, some 10⟩ 10 rfl (by norm_num)
    (by decide :
      (check_circuit_breaker 3 24 0 [some "win"] ⟨3, some 10⟩).paused_until
        = none)

/-- Helper: a streak consisting only of losses counts to its full length. -/
theorem countConsecutiveLosses_replicate (n : ℕ) :
    countConsecutiveLosses (List.replicate n (some "loss")) = n := by
  induction n with
  | zero => rfl
  | succ k ih => simp [List.replicate_succ, countConsecutiveLosses, ih]

/-- C2 amended: the risk check recomputes both fields of the circuit-breaker
row from the recent trade results on every run. After
`max_consecutive_losses` consecutive losing resolved trades with no
intervening win it writes the tripped state with
`paused_until = check_time + pause_hours`; a most recent win resets the row
to `(0, NULL)`; and whenever the counted streak is below the threshold the
check clears `paused_until` (so a pause is also cleared by any check that
sees a sub-threshold streak, not only by manual reset or expiry). -/
theorem check_circuit_breaker_amended (maxLosses : ℕ) (pauseHours now : ℚ)
    (recent : List (Option String)) (prev : CircuitBreakerRow)
    (hml : 1 ≤ maxLosses) :
    (recent.take maxLosses = List.replicate maxLosses (some "loss") →
      check_circuit_breaker maxLosses pauseHours now recent prev =
        ⟨maxLosses, some (now + pauseHours)⟩) ∧
    (recent.head? = some (some "win") →
      check_circuit_breaker maxLosses pauseHours now recent prev = ⟨0, none⟩) ∧
    (countConsecutiveLosses (recent.take maxLosses) < maxLosses →
      (check_circuit_breaker maxLosses pauseHours now recent prev).paused_until
        = none) := by
  refine ⟨?_, ?_, ?_⟩
  · intro htake
    simp [check_circuit_breaker, htake, countConsecutiveLosses_replicate]
  · intro hhead
    cases recent with
    | nil => simp at hhead
    | cons r rs =>
      obtain ⟨k, rfl⟩ : ∃ k, maxLosses = k + 1 :=
        ⟨maxLosses - 1, (Nat.succ_pred_eq_of_pos hml).symm⟩
      simp only [List.head?_cons, Option.some.injEq] at hhead
      subst hhead
      simp [check_circuit_breaker, List.take_succ_cons, countConsecutiveLosses]
  · intro hlt
    simp [check_circuit_breaker, Nat.not_le.mpr hlt]

/-- Witness for C2 amended at `max_consecutive_losses = 2`,
`pause_hours = 24`, check time 0: two straight losses trip the breaker until
time 24; a most recent win resets the row; a single loss leaves
`paused_until` NULL. -/
theorem check_circuit_breaker_amended_witness :
    check_circuit_breaker 2 24 0 [some "loss", some "loss"] ⟨0, none⟩ =
        ⟨2, some (0 + 24)⟩ ∧
    check_circuit_breaker 2 24 0 [some "win"] ⟨0, none⟩ = ⟨0, none⟩ ∧
    (check_circuit_breaker 2 24 0 [some "loss"] ⟨0, none⟩).paused_until =
      none := by
  refine ⟨?_, ?_, ?_⟩
  · exact (check_circuit_breaker_amended 2 24 0 [some "loss", some "loss"]
      ⟨0, none⟩ (by decide)).1 (by decide)
  · exact (check_circuit_breaker_amended 2 24 0 [some "win"] ⟨0, none⟩
      (by decide)).2.1 (by decide)
  · exact (check_circuit_breaker_amended 2 24 0 [some "loss"] ⟨0, none⟩
      (by decide)).2.2 (by decide)

/-- C3: if the circuit-breaker and daily-loss rules pass, the gate rejects
any stake above `capital_usd * max_position_pct / 100` with the position-size
reason; in the spec scenario `capital_usd = 100`, `max_position_pct = 5` the
maximum allowed position is 5 and a stake of 10 is rejected with the
position-size reason. -/
theorem validate_trade_position_rule (cfg : GateConfig) (env : GateEnv)
    (p : TradePayload)
    (hcb : ∀ pu, env.pausedUntil = some pu → ¬ env.now < pu)
    (hdl : |env.todayNegPnlTotal| < cfg.maxDailyLossUsd) :
    (maxPosition cfg < p.amountUsd →
      validate_trade cfg env p =
        (false, positionMsg p.amountUsd (maxPosition cfg))) ∧
    (cfg.capitalUsd = 100 → cfg.maxPositionPct = 5 → p.amountUsd = 10 →
      maxPosition cfg = 5 ∧
        validate_trade cfg env p = (false, positionMsg 10 5)) := by
  have hgen : maxPosition cfg < p.amountUsd →
      validate_trade cfg env p =
        (false, positionMsg p.amountUsd (maxPosition cfg)) := by
    intro hamt
    have hrest : validateRest cfg env p =
        (false, positionMsg p.amountUsd (maxPosition cfg)) := by
      simp [validateRest, not_le.mpr hdl, hamt]
    cases hpu : env.pausedUntil with
    | none => simp [validate_trade, hpu, hrest]
    | some pu => simp [validate_trade, hpu, hcb pu hpu, hrest]
  refine ⟨hgen, ?_⟩
  intro hc hp ha
  have hmax : maxPosition cfg = 5 := by
    simp [maxPosition, hc, hp]
    norm_num
  refine ⟨hmax, ?_⟩
  have := hgen (by rw [hmax, ha]; norm_num)
  rwa [hmax, ha] at this

/-- Witness for C3: the spec scenario with default limits, a clean
environment and a proposed stake of 10 with edge 1. -/
theorem validate_trade_position_rule_witness :
    maxPosition ⟨50, 5, 100, 3 / 100, []⟩ = 5 ∧
      validate_trade ⟨50, 5, 100, 3 / 100, []⟩ ⟨none, 0, 0, none, true, ""⟩
        ⟨10, 1⟩ = (false, positionMsg 10 5) :=
  (validate_trade_position_rule ⟨50, 5, 100, 3 / 100, []⟩
      ⟨none, 0, 0, none, true, ""⟩ ⟨10, 1⟩
      (by intro pu h; simp at h) (by norm_num)).2 rfl rfl rfl

/-- C4 counterexample: on empty input `run_backtest` returns the dataclass
defaults, whose equity curve is the EMPTY list, not the claimed one-element
list `[initial_capital]` (shown at `initial_capital = 1000`). -/
theorem run_backtest_empty_curve_counterexample :
    (run_backtest [] 1000 (5 / 100) none).equity_curve ≠ [1000] := by
  simp [run_backtest]

/-- C4 amended: on empty input `run_backtest` returns, without failing, a
result whose equity curve is the empty list (the dataclass default) and all
of whose summary statistics — total P&L, win rate, trade and win/loss
counts, drawdowns, Sharpe ratio, profit factor and averages — are zero. -/
theorem run_backtest_empty_amended (initial_capital max_position_pct : ℚ)
    (stop_loss_pct : Option ℚ) :
    run_backtest [] initial_capital max_position_pct stop_loss_pct =
      ⟨[], 0, 0, 0, 0, 0, 0, 0, 0, 0, 0, 0, [], []⟩ := by
  simp [run_backtest]

/-- Helper: the loop of `run_backtest` produces a chained row list from its
starting capital, in both the early-stop and the ordinary branch. -/
theorem btLoop_chained (initial_capital max_position_pct : ℚ)
    (stop_loss_pct : Option ℚ) :
    ∀ (ts : List BTrade) (capital : ℚ),
      chained capital
        (btLoop initial_capital max_position_pct stop_loss_pct ts capital) := by
  intro ts
  induction ts with
  | nil => intro capital; trivial
  | cons t ts ih =>
    intro capital
    rw [btLoop]
    split
    · exact ⟨rfl, trivial⟩
    · exact ⟨rfl, ih _⟩

/-- Helper: on a chained row list, the last element of the equity curve is
the starting capital plus the sum of the adjusted P&L column. -/
theorem chained_getLast (rows : List ResultRow) :
    ∀ capital, chained capital rows →
      (capital :: rows.map (fun r => r.capital_after)).getLast?.getD 0 =
        capital + (rows.map (fun r => r.adjusted_pnl)).sum := by
  induction rows with
  | nil => intro c _; simp
  | cons r rs ih =>
    intro c hc
    obtain ⟨h1, h2⟩ := hc
    have hrec := ih r.capital_after h2
    simp only [List.map_cons, List.getLast?_cons_cons] at hrec ⊢
    rw [hrec, h1, List.sum_cons]
    ring

/-- Helper: on a chained row list, consecutive equity-curve entries differ by
exactly the corresponding adjusted P&L. -/
theorem chained_getD (rows : List ResultRow) :
    ∀ capital, chained capital rows → ∀ i, i < rows.length →
      (capital :: rows.map (fun r => r.capital_after)).getD (i + 1) 0 =
        (capital :: rows.map (fun r => r.capital_after)).getD i 0 +
          (rows.map (fun r => r.adjusted_pnl)).getD i 0 := by
  induction rows with
  | nil => intro c _ i hi; simp at hi
  | cons r rs ih =>
    intro c hc i hi
    obtain ⟨h1, h2⟩ := hc
    cases i with
    | zero => simpa using h1
    | succ j =>
      have hrec := ih r.capital_after h2 j (by simpa using hi)
      simpa using hrec

/-- C6: for every non-empty trade input, the telescoping identity holds in
exact arithmetic — the last equity-curve value minus the first equals the
sum of the per-trade adjusted P&L values, and every step satisfies
`capital[i+1] = capital[i] + adjusted_pnl[i]`. -/
theorem run_backtest_telescoping (trades : List BTrade)
    (initial_capital max_position_pct : ℚ) (stop_loss_pct : Option ℚ)
    (hne : trades ≠ []) :
    ((run_backtest trades initial_capital max_position_pct
            stop_loss_pct).equity_curve.getLast?.getD 0) -
        ((run_backtest trades initial_capital max_position_pct
            stop_loss_pct).equity_curve.head?.getD 0) =
      ((run_backtest trades initial_capital max_position_pct
          stop_loss_pct).trades.map (fun r => r.adjusted_pnl)).sum ∧
    ∀ i, i + 1 < (run_backtest trades initial_capital max_position_pct
        stop_loss_pct).equity_curve.length →
      (run_backtest trades initial_capital max_position_pct
            stop_loss_pct).equity_curve.getD (i + 1) 0 =
        (run_backtest trades initial_capital max_position_pct
              stop_loss_pct).equity_curve.getD i 0 +
          ((run_backtest trades initial_capital max_position_pct
              stop_loss_pct).trades.map (fun r => r.adjusted_pnl)).getD i 0 := by
  have hch := btLoop_chained initial_capital max_position_pct stop_loss_pct
    (sortByKey (fun t => t.executed_at) trades) initial_capital
  simp only [run_backtest, if_neg hne]
  constructor
  · rw [chained_getLast _ _ hch]
    simp
  · intro i hi
    exact chained_getD _ _ hch i (by simpa using hi)

/-- Witness for C6: a single concrete trade. -/
theorem run_backtest_telescoping_witness :
    ((run_backtest [⟨some 5, some 2, 0⟩] 100 1
            none).equity_curve.getLast?.getD 0) -
        ((run_backtest [⟨some 5, some 2, 0⟩] 100 1
            none).equity_curve.head?.getD 0) =
      ((run_backtest [⟨some 5, some 2, 0⟩] 100 1
          none).trades.map (fun r => r.adjusted_pnl)).sum ∧
    ∀ i, i + 1 < (run_backtest [⟨some 5, some 2, 0⟩] 100 1
        none).equity_curve.length →
      (run_backtest [⟨some 5, some 2, 0⟩] 100 1
            none).equity_curve.getD (i + 1) 0 =
        (run_backtest [⟨some 5, some 2, 0⟩] 100 1
              none).equity_curve.getD i 0 +
          ((run_backtest [⟨some 5, some 2, 0⟩] 100 1
              none).trades.map (fun r => r.adjusted_pnl)).getD i 0 :=
  run_backtest_telescoping [⟨some 5, some 2, 0⟩] 100 1 none
    (List.cons_ne_nil _ _)

/-- Helper: a trade whose stake is positive and within the position cap is
not scaled — its adjusted P&L is its raw P&L. -/
theorem adjustedPnl_no_scale (max_position_pct capital p a e : ℚ)
    (ha : 0 < a) (hle : a ≤ capital * max_position_pct) :
    adjustedPnl max_position_pct capital ⟨some p, some a, e⟩ = p := by
  simp [adjustedPnl, min_eq_left hle, div_self (ne_of_gt ha)]

/-- Helper: the equity-curve, win-rate and total-P&L fields of a non-empty
backtest, expressed through the sorted-loop rows. -/
theorem run_backtest_main_fields (trades : List BTrade)
    (initial_capital max_position_pct : ℚ) (stop_loss_pct : Option ℚ)
    (h : trades ≠ []) :
    (run_backtest trades initial_capital max_position_pct
          stop_loss_pct).equity_curve =
        initial_capital ::
          (btLoop initial_capital max_position_pct stop_loss_pct
              (sortByKey (fun t => t.executed_at) trades)
              initial_capital).map (fun r => r.capital_after) ∧
    (run_backtest trades initial_capital max_position_pct
          stop_loss_pct).win_rate =
        (if 0 < ((btLoop initial_capital max_position_pct stop_loss_pct
              (sortByKey (fun t => t.executed_at) trades)
              initial_capital).map (fun r => r.adjusted_pnl)).length then
          (((((btLoop initial_capital max_position_pct stop_loss_pct
                  (sortByKey (fun t => t.executed_at) trades)
                  initial_capital).map (fun r => r.adjusted_pnl)).filter
                (fun x => 0 < x)).length : ℚ) :
              ℚ) /
            (((btLoop initial_capital max_position_pct stop_loss_pct
                (sortByKey (fun t => t.executed_at) trades)
                initial_capital).map (fun r => r.adjusted_pnl)).length : ℚ)
        else 0) ∧
    (run_backtest trades initial_capital max_position_pct
          stop_loss_pct).total_pnl =
        ((btLoop initial_capital max_position_pct stop_loss_pct
            (sortByKey (fun t => t.executed_at) trades)
            initial_capital).map (fun r => r.adjusted_pnl)).sum := by
  refine ⟨?_, ?_, ?_⟩ <;> simp only [run_backtest, if_neg h]

/-- C5: the spec scenario — five trades with realized P&L
`[+30, -40, +12, -35, +5]`, each stake positive and not exceeding the
current capital at its step (so no scaling occurs), initial capital 1000,
`max_position_pct = 1.0`, no stop loss — yields final equity-curve capital
972, win rate 3/5, and total P&L −28. -/
theorem run_backtest_scenario (a1 a2 a3 a4 a5 : ℚ)
    (h1 : 0 < a1 ∧ a1 ≤ 1000) (h2 : 0 < a2 ∧ a2 ≤ 1030)
    (h3 : 0 < a3 ∧ a3 ≤ 990) (h4 : 0 < a4 ∧ a4 ≤ 1002)
    (h5 : 0 < a5 ∧ a5 ≤ 967) :
    (run_backtest [⟨some 30, some a1, 0⟩, ⟨some (-40), some a2, 1⟩,
          ⟨some 12, some a3, 2⟩, ⟨some (-35), some a4, 3⟩,
          ⟨some 5, some a5, 4⟩] 1000 1 none).equity_curve.getLast?.getD 0
        = 972 ∧
    (run_backtest [⟨some 30, some a1, 0⟩, ⟨some (-40), some a2, 1⟩,
          ⟨some 12, some a3, 2⟩, ⟨some (-35), some a4, 3⟩,
          ⟨some 5, some a5, 4⟩] 1000 1 none).win_rate = 3 / 5 ∧
    (run_backtest [⟨some 30, some a1, 0⟩, ⟨some (-40), some a2, 1⟩,
          ⟨some 12, some a3, 2⟩, ⟨some (-35), some a4, 3⟩,
          ⟨some 5, some a5, 4⟩] 1000 1 none).total_pnl = -28 := by
  have k1 : adjustedPnl 1 1000 ⟨some 30, some a1, 0⟩ = 30 :=
    adjustedPnl_no_scale 1 1000 30 a1 0 h1.1 (by rw [mul_one]; exact h1.2)
  have k2 : adjustedPnl 1 1030 ⟨some (-40), some a2, 1⟩ = -40 :=
    adjustedPnl_no_scale 1 1030 (-40) a2 1 h2.1 (by rw [mul_one]; exact h2.2)
  have k3 : adjustedPnl 1 990 ⟨some 12, some a3, 2⟩ = 12 :=
    adjustedPnl_no_scale 1 990 12 a3 2 h3.1 (by rw [mul_one]; exact h3.2)
  have k4 : adjustedPnl 1 1002 ⟨some (-35), some a4, 3⟩ = -35 :=
    adjustedPnl_no_scale 1 1002 (-35) a4 3 h4.1 (by rw [mul_one]; exact h4.2)
  have k5 : adjustedPnl 1 967 ⟨some 5, some a5, 4⟩ = 5 :=
    adjustedPnl_no_scale 1 967 5 a5 4 h5.1 (by rw [mul_one]; exact h5.2)
  have hsort : sortByKey (fun t => t.executed_at)
      [(⟨some 30, some a1, 0⟩ : BTrade), ⟨some (-40), some a2, 1⟩,
        ⟨some 12, some a3, 2⟩, ⟨some (-35), some a4, 3⟩,
        ⟨some 5, some a5, 4⟩] =
      [⟨some 30, some a1, 0⟩, ⟨some (-40), some a2, 1⟩,
        ⟨some 12, some a3, 2⟩, ⟨some (-35), some a4, 3⟩,
        ⟨some 5, some a5, 4⟩] := by
    norm_num [sortByKey, insertByKey]
  have hrows : btLoop 1000 1 none
      [(⟨some 30, some a1, 0⟩ : BTrade), ⟨some (-40), some a2, 1⟩,
        ⟨some 12, some a3, 2⟩, ⟨some (-35), some a4, 3⟩,
        ⟨some 5, some a5, 4⟩] 1000 =
      [⟨30, 1030⟩, ⟨-40, 990⟩, ⟨12, 1002⟩, ⟨-35, 967⟩, ⟨5, 972⟩] := by
    norm_num [btLoop, stopHit, k1, k2, k3, k4, k5]
  have hfields := run_backtest_main_fields
    [(⟨some 30, some a1, 0⟩ : BTrade), ⟨some (-40), some a2, 1⟩,
      ⟨some 12, some a3, 2⟩, ⟨some (-35), some a4, 3⟩, ⟨some 5, some a5, 4⟩]
    1000 1 none (List.cons_ne_nil _ _)
  rw [hsort, hrows] at hfields
  obtain ⟨f1, f2, f3⟩ := hfields
  refine ⟨?_, ?_, ?_⟩
  · rw [f1]; simp
  · rw [f2]; norm_num [List.filter]
  · rw [f3]; norm_num

/-- Witness for C5 with every stake equal to 10 (positive and within the
running capital at every step). -/
theorem run_backtest_scenario_witness :
    ((0 : ℚ) < 10 ∧ (10 : ℚ) ≤ 1000) ∧
    ((run_backtest [⟨some 30, some 10, 0⟩, ⟨some (-40), some 10, 1⟩,
          ⟨some 12, some 10, 2⟩, ⟨some (-35), some 10, 3⟩,
          ⟨some 5, some 10, 4⟩] 1000 1 none).equity_curve.getLast?.getD 0
        = 972 ∧
      (run_backtest [⟨some 30, some 10, 0⟩, ⟨some (-40), some 10, 1⟩,
          ⟨some 12, some 10, 2⟩, ⟨some (-35), some 10, 3⟩,
          ⟨some 5, some 10, 4⟩] 1000 1 none).win_rate = 3 / 5 ∧
      (run_backtest [⟨some 30, some 10, 0⟩, ⟨some (-40), some 10, 1⟩,
          ⟨some 12, some 10, 2⟩, ⟨some (-35), some 10, 3⟩,
          ⟨some 5, some 10, 4⟩] 1000 1 none).total_pnl = -28) :=
  ⟨⟨by norm_num, by norm_num⟩,
    run_backtest_scenario 10 10 10 10 10 (by norm_num) (by norm_num)
      (by norm_num) (by norm_num) (by norm_num)⟩

/-- C7 counterexample: on the spec equity curve
`[1000, 1050, 1020, 980, 1010, 1080, 1060, 1100]` the analyzer does NOT find
exactly one drawdown period — the dip from 1080 to 1060 is a second one. -/
theorem analyze_drawdowns_period_count_counterexample :
    (analyze_drawdowns [1000, 1050, 1020, 980, 1010, 1080, 1060, 1100]
        5).top_drawdowns.length ≠ 1 := by
  norm_num [analyze_drawdowns, find_drawdown_periods, ddScanGo, ddScanStep,
    closePeriod, openPeriod, runningMax, runningMaxAux, sortByKeyDesc,
    insertByKeyDesc, npMax, npMean, max_def]

/-- C7 amended: on the spec equity curve the analyzer finds exactly two
drawdown periods, the deeper one from peak 1050 (backdated start index 1) to
trough 980 at index 3 with `drawdown_abs = 70` and recovery at index 5 (the
first point back at the running maximum, capital 1080 > 1050), followed by
the shallower period from peak 1080 to trough 1060 with `drawdown_abs = 20`
and recovery at index 7. -/
theorem analyze_drawdowns_scenario_amended :
    (analyze_drawdowns [1000, 1050, 1020, 980, 1010, 1080, 1060, 1100]
        5).top_drawdowns =
      [⟨1, 3, some 5, 1050, 980, 70, 1 / 15, 2, some 2⟩,
        ⟨5, 6, some 7, 1080, 1060, 20, 1 / 54, 1, some 1⟩] := by
  norm_num [analyze_drawdowns, find_drawdown_periods, ddScanGo, ddScanStep,
    closePeriod, openPeriod, runningMax, runningMaxAux, sortByKeyDesc,
    insertByKeyDesc, npMax, npMean, max_def]

/-- C10: `run_monte_carlo` is deterministic — the result component does not
depend on the ambient world, because the generator is constructed inside the
function from the constant seed 42 and no seed parameter is exposed, so any
two invocations on the same four inputs return identical results. -/
theorem run_monte_carlo_deterministic (w1 w2 : World) (pnls : List ℚ)
    (n_simulations : ℕ) (initial_capital : ℚ) (n_curves_to_store : ℕ) :
    (run_monte_carlo w1 pnls n_simulations initial_capital
        n_curves_to_store).1 =
      (run_monte_carlo w2 pnls n_simulations initial_capital
        n_curves_to_store).1 := rfl

/-- Helper: the selection shuffle returns a permutation of its input, for
any fuel and generator state. -/
theorem selShuffle_perm (fuel : ℕ) : ∀ (s : ℕ) (l : List ℚ),
    (selShuffle fuel s l).1.Perm l := by
  induction fuel with
  | zero => intro s l; exact List.Perm.refl l
  | succ k ih =>
    intro s l
    cases l with
    | nil => exact List.Perm.refl []
    | cons y ys =>
      have hlen : s % (y :: ys).length < (y :: ys).length :=
        Nat.mod_lt _ (by simp)
      have hx : (y :: ys).getD (s % (y :: ys).length) 0 ∈ y :: ys := by
        rw [List.getD_eq_getElem _ _ hlen]
        exact List.getElem_mem _
      exact ((ih (rngNext s) _).cons _).trans (List.perm_cons_erase hx).symm

/-- Helper: the last element of a list with a nonempty tail is the last
element of the tail. -/
theorem getLast_getD_cons (a : ℚ) (l : List ℚ) (h : l ≠ []) :
    (a :: l).getLast?.getD 0 = l.getLast?.getD 0 := by
  cases l with
  | nil => exact absurd rfl h
  | cons b bs => simp

/-- Helper: the last entry of the additive scan is the start plus the sum. -/
theorem scanl_add_getLast (l : List ℚ) : ∀ a : ℚ,
    (List.scanl (fun p q => p + q) a l).getLast?.getD 0 = a + l.sum := by
  induction l with
  | nil => intro a; simp
  | cons x xs ih =>
    intro a
    have hne : List.scanl (fun p q => p + q) (a + x) xs ≠ [] := by
      cases xs <;> simp
    simp only [List.scanl_cons, List.singleton_append]
    rw [getLast_getD_cons _ _ hne, ih, List.sum_cons]
    ring

/-- Helper: every final capital of the simulation loop equals the initial
capital plus the sum of the P&L vector, because each iteration permutes the
same vector. -/
theorem mcShuffles_finals (pnls : List ℚ) (initial_capital : ℚ) :
    ∀ (n s : ℕ),
      (mcShuffles n s pnls).map
          (fun sh => (mcEquity initial_capital sh).getLast?.getD 0) =
        List.replicate n (initial_capital + pnls.sum) := by
  intro n
  induction n with
  | zero => intro s; rfl
  | succ k ih =>
    intro s
    simp only [mcShuffles, List.map_cons, ih, List.replicate_succ,
      List.cons.injEq, and_true]
    rw [mcEquity, scanl_add_getLast, rngPermutation,
      (selShuffle_perm pnls.length s pnls).sum_eq]

/-- Helper: inserting a value into a constant run of itself extends the
run. -/
theorem insertByKey_self_replicate (c : ℚ) (k : ℕ) :
    insertByKey (fun x => x) c (List.replicate k c) =
      List.replicate (k + 1) c := by
  cases k with
  | zero => rfl
  | succ j => simp [List.replicate_succ, insertByKey]

/-- Helper: sorting a constant list is the identity. -/
theorem sortByKey_replicate (c : ℚ) : ∀ n : ℕ,
    sortByKey (fun x => x) (List.replicate n c) = List.replicate n c := by
  intro n
  induction n with
  | zero => rfl
  | succ k ih =>
    rw [List.replicate_succ]
    show insertByKey (fun x => x) c
      (sortByKey (fun x => x) (List.replicate k c)) = _
    rw [ih, insertByKey_self_replicate, List.replicate_succ]

/-- Helper: reading inside the bounds of a constant list yields the
constant. -/
theorem getD_replicate_of_lt (c : ℚ) : ∀ (n i : ℕ), i < n →
    (List.replicate n c).getD i 0 = c := by
  intro n
  induction n with
  | zero => intro i h; exact absurd h (Nat.not_lt_zero i)
  | succ k ih =>
    intro i hi
    cases i with
    | zero => rfl
    | succ j =>
      rw [List.replicate_succ, List.getD_cons_succ]
      exact ih j (by omega)

/-- Helper: the median of a constant sample is the constant. -/
theorem npMedian_replicate (c : ℚ) (n : ℕ) (hn : 1 ≤ n) :
    npMedian (List.replicate n c) = c := by
  unfold npMedian
  rw [sortByKey_replicate]
  simp only [List.length_replicate]
  rw [if_neg (by omega)]
  by_cases h : n % 2 = 1
  · rw [if_pos h, getD_replicate_of_lt c n (n / 2) (by omega)]
  · rw [if_neg h, getD_replicate_of_lt c n (n / 2) (by omega),
      getD_replicate_of_lt c n (n / 2 - 1) (by omega)]
    ring

/-- Helper: the mean of a constant sample is the constant. -/
theorem npMean_replicate (c : ℚ) (n : ℕ) (hn : 1 ≤ n) :
    npMean (List.replicate n c) = c := by
  unfold npMean
  rw [List.sum_replicate, List.length_replicate, nsmul_eq_mul]
  exact mul_div_cancel_left₀ c (Nat.cast_ne_zero.mpr (by omega))

/-- Helper: any percentile between 0 and 100 of a constant sample is the
constant. -/
theorem npPercentile_replicate (c : ℚ) (n : ℕ) (q : ℚ) (hn : 1 ≤ n)
    (_hq0 : 0 ≤ q) (hq1 : q ≤ 100) :
    npPercentile (List.replicate n c) q = c := by
  unfold npPercentile
  rw [sortByKey_replicate]
  simp only [List.length_replicate]
  rw [if_neg (by omega)]
  have hn1 : (1 : ℚ) ≤ (n : ℚ) := by exact_mod_cast hn
  have h1 : q / 100 * ((n : ℚ) - 1) ≤ (n : ℚ) - 1 := by
    have hq : q / 100 ≤ 1 := by linarith
    calc q / 100 * ((n : ℚ) - 1) ≤ 1 * ((n : ℚ) - 1) :=
          mul_le_mul_of_nonneg_right hq (by linarith)
      _ = (n : ℚ) - 1 := one_mul _
  have hcast : ((n : ℚ) - 1) = (((n : ℤ) - 1 : ℤ) : ℚ) := by push_cast; ring
  have hfloor_eq : Int.floor ((n : ℚ) - 1) = (n : ℤ) - 1 := by
    rw [hcast, Int.floor_intCast]
  have hceil_eq : Int.ceil ((n : ℚ) - 1) = (n : ℤ) - 1 := by
    rw [hcast, Int.ceil_intCast]
  have hfl : (Int.floor (q / 100 * ((n : ℚ) - 1))).toNat < n := by
    have hle : Int.floor (q / 100 * ((n : ℚ) - 1)) ≤ (n : ℤ) - 1 :=
      (Int.floor_le_floor h1).trans_eq hfloor_eq
    omega
  have hce : (Int.ceil (q / 100 * ((n : ℚ) - 1))).toNat < n := by
    have hle : Int.ceil (q / 100 * ((n : ℚ) - 1)) ≤ (n : ℤ) - 1 :=
      (Int.ceil_le_ceil h1).trans_eq hceil_eq
    omega
  rw [getD_replicate_of_lt c n _ hfl, getD_replicate_of_lt c n _ hce]
  ring

/-- C9: in exact arithmetic every simulation of `run_monte_carlo` ends at
the same final capital `initial_capital + sum(pnls)` — a permutation
preserves the sum — so `prob_profitable` is exactly 0 or 1 and the median,
mean, 5th-percentile and 95th-percentile net P&L all equal `sum(pnls)`. -/
theorem run_monte_carlo_degenerate (w : World) (pnls : List ℚ)
    (n_simulations : ℕ) (initial_capital : ℚ) (n_curves_to_store : ℕ)
    (_hne : pnls ≠ []) (hsim : 1 ≤ n_simulations) :
    (∀ c ∈ (run_monte_carlo w pnls n_simulations initial_capital
        n_curves_to_store).1.final_capitals,
      c = initial_capital + pnls.sum) ∧
    ((run_monte_carlo w pnls n_simulations initial_capital
        n_curves_to_store).1.prob_profitable = 0 ∨
      (run_monte_carlo w pnls n_simulations initial_capital
        n_curves_to_store).1.prob_profitable = 1) ∧
    (run_monte_carlo w pnls n_simulations initial_capital
        n_curves_to_store).1.median_pnl = pnls.sum ∧
    (run_monte_carlo w pnls n_simulations initial_capital
        n_curves_to_store).1.mean_pnl = pnls.sum ∧
    (run_monte_carlo w pnls n_simulations initial_capital
        n_curves_to_store).1.pnl_5th = pnls.sum ∧
    (run_monte_carlo w pnls n_simulations initial_capital
        n_curves_to_store).1.pnl_95th = pnls.sum := by
  have hmap : ((mcShuffles n_simulations 42 pnls).map
        (mcEquity initial_capital)).map (fun c => c.getLast?.getD 0) =
      List.replicate n_simulations (initial_capital + pnls.sum) := by
    rw [List.map_map]
    exact (by simpa [Function.comp] using
      mcShuffles_finals pnls initial_capital n_simulations 42)
  refine ⟨?_, ?_, ?_, ?_, ?_, ?_⟩ <;>
    simp only [run_monte_carlo, np_default_rng, mcAggregate]
  · intro c hc
    rw [hmap] at hc
    exact List.eq_of_mem_replicate hc
  · rw [hmap, List.map_replicate, npMean_replicate _ _ hsim]
    by_cases h : initial_capital < initial_capital + pnls.sum
    · exact Or.inr (if_pos h)
    · exact Or.inl (if_neg h)
  · rw [hmap, npMedian_replicate _ _ hsim]; ring
  · rw [hmap, npMean_replicate _ _ hsim]; ring
  · rw [hmap,
      npPercentile_replicate _ _ _ hsim (by norm_num) (by norm_num)]
    ring
  · rw [hmap,
      npPercentile_replicate _ _ _ hsim (by norm_num) (by norm_num)]
    ring

/-- Witness for C9: two simulations over the P&L vector `[1, -2]` from
initial capital 100. -/
theorem run_monte_carlo_degenerate_witness :
    (∀ c ∈ (run_monte_carlo ⟨0⟩ [1, -2] 2 100 1).1.final_capitals,
      c = 100 + ([(1 : ℚ), -2]).sum) ∧
    ((run_monte_carlo ⟨0⟩ [1, -2] 2 100 1).1.prob_profitable = 0 ∨
      (run_monte_carlo ⟨0⟩ [1, -2] 2 100 1).1.prob_profitable = 1) ∧
    (run_monte_carlo ⟨0⟩ [1, -2] 2 100 1).1.median_pnl =
      ([(1 : ℚ), -2]).sum ∧
    (run_monte_carlo ⟨0⟩ [1, -2] 2 100 1).1.mean_pnl =
      ([(1 : ℚ), -2]).sum ∧
    (run_monte_carlo ⟨0⟩ [1, -2] 2 100 1).1.pnl_5th =
      ([(1 : ℚ), -2]).sum ∧
    (run_monte_carlo ⟨0⟩ [1, -2] 2 100 1).1.pnl_95th =
      ([(1 : ℚ), -2]).sum :=
  run_monte_carlo_degenerate ⟨0⟩ [1, -2] 2 100 1 (List.cons_ne_nil _ _)
    (by norm_num)

/-- Helper: stable insertion grows the length by one. -/
theorem insertByKey_length {α : Type} (key : α → ℚ) (x : α) :
    ∀ l : List α, (insertByKey key x l).length = l.length + 1 := by
  intro l
  induction l with
  | nil => rfl
  | cons y ys ih =>
    rw [insertByKey]
    split
    · rfl
    · simp only [List.length_cons, ih]

/-- Helper: the stable sort preserves length (pandas `sort_values` returns a
frame of the same length). -/
theorem sortByKey_length {α : Type} (key : α → ℚ) :
    ∀ l : List α, (sortByKey key l).length = l.length := by
  intro l
  induction l with
  | nil => rfl
  | cons x xs ih =>
    rw [sortByKey, insertByKey_length, ih, List.length_cons]

/-- Helper: length of a Python slice with nonnegative bounds. -/
theorem pySlice_length {α : Type} (l : List α) (a b : ℕ) :
    (pySlice l a b).length = min (b - a) (l.length - a) := by
  simp [pySlice]

/-- Helper: a kept window carries its loop index, and its train and test
trade counts together never exceed the window span `end - start`. -/
theorem wfWindowAt_bounds (df : List WTrade) (n window_size step : ℕ)
    (train_ratio : ℚ) (i : ℕ) (w : WalkForwardWindow)
    (h : wfWindowAt df n window_size step train_ratio i = some w) :
    w.window_id = i ∧
    w.train_trades + w.test_trades ≤
      min (i * step + window_size) n - i * step ∧
    w.test_trades ≤ min (i * step + window_size) n - i * step := by
  simp only [wfWindowAt] at h
  split at h
  case isTrue => exact absurd h (by simp)
  case isFalse h1 =>
    split at h
    case isTrue => exact absurd h (by simp)
    case isFalse h2 =>
      rw [Option.some_inj] at h
      subst h
      rw [pySlice_length] at h2
      refine ⟨rfl, ?_, ?_⟩ <;>
        simp only [pySlice_length] <;> omega

/-- Helper: the total of the test-trade counts of the kept windows is
bounded by the total of an upper-bound function over all loop indices. -/
theorem filterMap_test_sum_le (f : ℕ → Option WalkForwardWindow)
    (g : ℕ → ℕ) : ∀ L : List ℕ,
    (∀ i ∈ L, ∀ w, f i = some w → w.test_trades ≤ g i) →
    ((L.filterMap f).map (fun w => w.test_trades)).sum ≤
      (L.map g).sum := by
  intro L
  induction L with
  | nil => intro _; simp
  | cons i L ih =>
    intro h
    have hrest := ih (fun j hj w hw => h j (List.mem_cons_of_mem _ hj) w hw)
    cases hf : f i with
    | none =>
      simp only [List.filterMap_cons, hf, List.map_cons, List.sum_cons]
      omega
    | some w =>
      have hb := h i (List.mem_cons_self _ _) w hf
      simp only [List.filterMap_cons, hf, List.map_cons, List.sum_cons]
      omega

/-- Helper: when consecutive window starts advance by at least the window
size, the spans are disjoint subintervals of `[0, n)`, so their total length
is at most `n` (stated against the partial bound `min (m * step) n`). -/
theorem span_sum_le (ws step n : ℕ) (hstep : ws ≤ step) : ∀ m : ℕ,
    ((List.range m).map
        (fun i => min (i * step + ws) n - i * step)).sum ≤
      min (m * step) n := by
  intro m
  induction m with
  | zero => simp
  | succ k ih =>
    rw [List.range_succ, List.map_append, List.sum_append]
    simp only [List.map_cons, List.map_nil, List.sum_cons, List.sum_nil]
    have hmul : (k + 1) * step = k * step + step := by ring
    omega

/-- Helper: the derived window shape has at least one window, its
size-times-count stays within the trade count, and the size is at least 10
once at least 20 trades are present. -/
theorem wfShape_spec (n nw : ℕ) (hnw : 1 ≤ nw) (hn : 20 ≤ n) :
    1 ≤ (wfShape n nw).1 ∧ (wfShape n nw).2 * (wfShape n nw).1 ≤ n ∧
      10 ≤ (wfShape n nw).2 := by
  unfold wfShape
  by_cases h : n / nw < 10
  · simp only [if_pos h]
    refine ⟨le_max_left _ _, Nat.div_mul_le_self _ _, ?_⟩
    have h10 : 2 ≤ n / 10 := by omega
    have hmax : max 1 (n / 10) = n / 10 := max_eq_right (by omega)
    rw [hmax]
    rw [Nat.le_div_iff_mul_le (by omega)]
    have := Nat.div_mul_le_self n 10
    omega
  · simp only [if_neg h]
    exact ⟨hnw, Nat.div_mul_le_self _ _, by omega⟩

/-- Helper: with at least two windows, the step is at least the window
size — consecutive windows never overlap. -/
theorem wfStep_ge (n nw ws : ℕ) (h2 : 2 ≤ nw) (hle : ws * nw ≤ n) :
    ws ≤ wfStep n nw ws := by
  unfold wfStep
  have hmax : max 1 (nw - 1) = nw - 1 := max_eq_right (by omega)
  rw [hmax]
  have hmul : ws * (nw - 1) = ws * nw - ws := by
    have : nw - 1 = Nat.pred nw := rfl
    rw [this, Nat.mul_pred]
  have hdiv : ws ≤ (n - ws) / (nw - 1) := by
    rw [Nat.le_div_iff_mul_le (by omega)]
    omega
  exact hdiv.trans (le_max_right 1 _)

/-- C8: for every trade history and every valid parameterisation (at least
one requested window, nonnegative train fraction), the sum of `test_trades`
over the returned windows is at most the total trade count, and each
returned window's `train_trades + test_trades` is at most that window's span
`end - start` (expressed through the window id and the derived size and
step). -/
theorem run_walk_forward_window_bounds (trades : List WTrade)
    (n_windows : ℕ) (train_ratio : ℚ) (hnw : 1 ≤ n_windows)
    (_hr : 0 ≤ train_ratio) :
    (((run_walk_forward trades n_windows train_ratio).windows.map
        (fun w => w.test_trades)).sum ≤ trades.length) ∧
    (∀ w ∈ (run_walk_forward trades n_windows train_ratio).windows,
      w.train_trades + w.test_trades ≤
        min (w.window_id *
              wfStep trades.length (wfShape trades.length n_windows).1
                (wfShape trades.length n_windows).2 +
            (wfShape trades.length n_windows).2) trades.length -
          w.window_id *
            wfStep trades.length (wfShape trades.length n_windows).1
              (wfShape trades.length n_windows).2) := by
  by_cases hlen : trades.length < 20
  · constructor
    · simp [run_walk_forward, hlen]
    · intro w hw
      simp [run_walk_forward, hlen] at hw
  · have hn20 : 20 ≤ trades.length := by omega
    have hdflen : (sortByKey (fun t => t.executed_at) trades).length
        = trades.length := sortByKey_length _ _
    obtain ⟨hnw1, hmulle, hws10⟩ :=
      wfShape_spec trades.length n_windows hnw hn20
    simp only [run_walk_forward, hlen, if_false, hdflen]
    set NW := (wfShape trades.length n_windows).1 with hNW
    set WS := (wfShape trades.length n_windows).2 with hWS
    set ST := wfStep trades.length NW WS with hST
    set DF := sortByKey (fun t => t.executed_at) trades with hDF
    set W := (List.range NW).filterMap
      (wfWindowAt DF trades.length WS ST train_ratio) with hW
    by_cases hempty : W.isEmpty = true
    · rw [if_pos hempty]
      constructor
      · simp
      · intro w hw
        simp at hw
    · rw [if_neg hempty]
      have hkey : ∀ i ∈ List.range NW, ∀ w,
          wfWindowAt DF trades.length WS ST train_ratio i = some w →
          w.test_trades ≤ min (i * ST + WS) trades.length - i * ST :=
        fun i _ w hw =>
          (wfWindowAt_bounds DF trades.length WS ST train_ratio i w hw).2.2
      constructor
      · have hsum := filterMap_test_sum_le
          (wfWindowAt DF trades.length WS ST train_ratio)
          (fun i => min (i * ST + WS) trades.length - i * ST)
          (List.range NW) hkey
        rw [← hW] at hsum
        rcases Nat.lt_or_ge NW 2 with hc | hc
        · have hone : NW = 1 := by omega
          rw [hone] at hsum
          have hg : ((List.range 1).map
              (fun i => min (i * ST + WS) trades.length - i * ST)).sum ≤
              trades.length := by
            have hr1 : List.range 1 = [0] := rfl
            simp [hr1]
          exact hsum.trans hg
        · have hstep : WS ≤ ST := by
            rw [hST]
            exact wfStep_ge trades.length NW WS hc hmulle
          have hspan := span_sum_le WS ST trades.length hstep NW
          exact hsum.trans (hspan.trans (min_le_right _ _))
      · intro w hw
        rw [hW] at hw
        obtain ⟨i, _, hfi⟩ := List.mem_filterMap.1 hw
        obtain ⟨hid, hb, _⟩ :=
          wfWindowAt_bounds DF trades.length WS ST train_ratio i w hfi
        rw [hid]
        exact hb

/-- Witness for C8: twenty unit-P&L trades at distinct times, five requested
windows, train ratio 7/10. -/
theorem run_walk_forward_window_bounds_witness :
    (((run_walk_forward ((List.range 20).map
            (fun j => (⟨some 1, (j : ℚ)⟩ : WTrade))) 5
          (7 / 10)).windows.map (fun w => w.test_trades)).sum ≤
      ((List.range 20).map
        (fun j => (⟨some 1, (j : ℚ)⟩ : WTrade))).length) ∧
    (∀ w ∈ (run_walk_forward ((List.range 20).map
          (fun j => (⟨some 1, (j : ℚ)⟩ : WTrade))) 5 (7 / 10)).windows,
      w.train_trades + w.test_trades ≤
        min (w.window_id *
              wfStep ((List.range 20).map
                  (fun j => (⟨some 1, (j : ℚ)⟩ : WTrade))).length
                (wfShape ((List.range 20).map
                    (fun j => (⟨some 1, (j : ℚ)⟩ : WTrade))).length 5).1
                (wfShape ((List.range 20).map
                    (fun j => (⟨some 1, (j : ℚ)⟩ : WTrade))).length 5).2 +
            (wfShape ((List.range 20).map
                (fun j => (⟨some 1, (j : ℚ)⟩ : WTrade))).length 5).2)
          ((List.range 20).map
            (fun j => (⟨some 1, (j : ℚ)⟩ : WTrade))).length -
          w.window_id *
            wfStep ((List.range 20).map
                (fun j => (⟨some 1, (j : ℚ)⟩ : WTrade))).length
              (wfShape ((List.range 20).map
                  (fun j => (⟨some 1, (j : ℚ)⟩ : WTrade))).length 5).1
              (wfShape ((List.range 20).map
                  (fun j => (⟨some 1, (j : ℚ)⟩ : WTrade))).length 5).2) :=
  run_walk_forward_window_bounds
    ((List.range 20).map (fun j => (⟨some 1, (j : ℚ)⟩ : WTrade))) 5 (7 / 10)
    (by norm_num) (by norm_num)
